import Mathlib

/-!
Verification of the correlnet correlation-network pipeline.

The Python source is embedded shallowly:
* a pandas `DataFrame` of observations becomes `Table` (named columns of
  rational values plus a row count);
* the pairwise-correlation `DataFrame` produced by
  `Correlater.pairwise_correlations` becomes a `List PairRow` in the same
  row-major order as the Python double loop;
* external library functions (scipy correlation functions, the sklearn
  TSNE reduction, the sklearn `StandardScaler`, the numpy random generator)
  are parameters of the definitions that call them;
* the statsmodels `multipletests` call is embedded for the `bonferroni`
  method it is invoked with (corrected p-value `min 1 (p * k)`);
* floating-point values are modelled as rationals; a missing value (NaN)
  in data handed to an embedder is modelled as `Option.none`.
-/

namespace Correlnet

/-- Observation table: named columns of rational values, `nrows` samples. -/
structure Table where
  cols : List (String × List Rat)
  nrows : Nat
deriving DecidableEq

/-- One row of the pairwise-correlation data frame: the ordered pair of
variable names together with the statistic and the p-value. -/
structure PairRow where
  var_1 : String
  var_2 : String
  statistic : Rat
  pvalue : Rat
deriving DecidableEq

/-- A correlation method function: two equal-length numeric sequences in,
a `(statistic, pvalue)` pair out. -/
abbrev CorFn := List Rat → List Rat → Rat × Rat

/-- Row built for the ordered pair `(c1, c2)` by one iteration of the double
loop in `Correlater.pairwise_correlations`. -/
def mkRow (corFn : CorFn) (c1 c2 : String × List Rat) : PairRow :=
  { var_1 := c1.1, var_2 := c2.1,
    statistic := (corFn c1.2 c2.2).1, pvalue := (corFn c1.2 c2.2).2 }

/-- The double loop `for var_1 in df.columns: for var_2 in df.columns:` of
`Correlater.pairwise_correlations`, before any correction is applied. -/
def pairwise_raw (corFn : CorFn) (df : Table) : List PairRow :=
  df.cols.flatMap (fun c1 => df.cols.map (fun c2 => mkRow corFn c1 c2))

/-- Bonferroni branch of the statsmodels `multipletests` call: each p-value is
multiplied by the number of tests and capped at 1. -/
def bonferroni (ps : List Rat) : List Rat :=
  ps.map (fun p => min 1 (p * (ps.length : Rat)))

/-- Dispatch of the statsmodels `multipletests` call on the method name. -/
def multipletests (method : String) (ps : List Rat) : Except String (List Rat) :=
  if method = "bonferroni" then .ok (bonferroni ps)
  else .error ("multipletests method " ++ method ++ " is not supported")

/-- `Correlater.pairwise_correlations`: the raw double loop, then, when the
`correction` attribute is truthy (modelled: a non-empty string), the p-value
column is replaced by the corrected p-values in the same positions. -/
def pairwise_correlations (corFn : CorFn) (correction : String) (df : Table) :
    Except String (List PairRow) :=
  let rows := pairwise_raw corFn df
  if correction = "" then .ok rows
  else
    match multipletests correction (rows.map (fun r => r.pvalue)) with
    | .error e => .error e
    | .ok ps => .ok (List.zipWith (fun r p => { r with pvalue := p }) rows ps)

/-- The `method` attribute of a `Correlater`: a known name, a callable, or
anything else (which `cor_fn` rejects). -/
inductive Method where
  | pearson
  | spearman
  | kendall
  | custom (f : CorFn)
  | other (name : String)

/-- `Correlater.cor_fn`: resolves the method to a correlation function; the
three scipy functions are external and passed as parameters. -/
def cor_fn (pearsonr spearmanr kendalltau : CorFn) : Method → Except String CorFn
  | .pearson => .ok pearsonr
  | .spearman => .ok spearmanr
  | .kendall => .ok kendalltau
  | .custom f => .ok f
  | .other s => .error ("method " ++ s ++ " is not supported")

/-- A positions data frame: the variable names as index and one 2D
coordinate per variable, in index order. -/
structure PosDf where
  index : List String
  coords : List (Rat × Rat)
deriving DecidableEq

/-- The assembled `CorrelNet` object: variable order, threshold, the stored
correlation data frame and the stored embedding positions. -/
structure CorrelNet where
  vars : List String
  alpha : Rat
  correl_df : List PairRow
  pos_df : PosDf
deriving DecidableEq

/-- `CorrelNet.__init__` (reached through the `correlnet` helper): stores the
variable order from the table's columns, computes the correlations, computes
the embedding, and stores `alpha` as given — no step looks at `alpha`. -/
def CorrelNet.init (pearsonr spearmanr kendalltau : CorFn) (method : Method)
    (correction : String)
    (embed : Table → List PairRow → Except String PosDf)
    (df : Table) (alpha : Rat) : Except String CorrelNet :=
  match cor_fn pearsonr spearmanr kendalltau method with
  | .error e => .error e
  | .ok f =>
    match pairwise_correlations f correction df with
    | .error e => .error e
    | .ok correl_df =>
      match embed df correl_df with
      | .error e => .error e
      | .ok pos_df =>
        .ok { vars := df.cols.map Prod.fst, alpha := alpha,
              correl_df := correl_df, pos_df := pos_df }

/-- Boolean form of `isOk` on `Except`. -/
def exceptOk {ε α : Type} : Except ε α → Bool
  | .ok _ => true
  | .error _ => false

/-- Edge list computed inside `CorrelNet.plot`: the correlation data frame is
filtered by `pvalue <= alpha` alone, and each surviving row is mapped to the
pair of positional indices of its two variable names. -/
def CorrelNet.plot_edge_list (net : CorrelNet) : List (Nat × Nat) :=
  (net.correl_df.filter (fun r => r.pvalue ≤ net.alpha)).map
    (fun r => (net.vars.indexOf r.var_1, net.vars.indexOf r.var_2))

/-- Does row `r` describe the undirected edge between `a` and `b`? This is the
key equality used by `networkx.Graph.add_edge`, which identifies `(a, b)` with
`(b, a)`. -/
def sameEdge (a b : String) (r : PairRow) : Bool :=
  (r.var_1 == a && r.var_2 == b) || (r.var_1 == b && r.var_2 == a)

/-- Attribute record of the edge between `a` and `b` in the graph built by
`nx.from_pandas_edgelist`: rows are added in data-frame order and a later row
for the same unordered pair overwrites the attributes, so the surviving
attributes are those of the last matching row; `none` when no row matches
(no such edge). -/
def get_edge_data (rows : List PairRow) (a b : String) : Option PairRow :=
  (rows.filter (sameEdge a b)).getLast?

/-- Edge existence in the graph built by `nx.from_pandas_edgelist`. -/
def has_edge (rows : List PairRow) (a b : String) : Bool :=
  (get_edge_data rows a b).isSome

/-- The closure returned by `CorrelNet.get_edge_filter`:
`graph.get_edge_data(n1, n2)["pvalue"] <= self.alpha and n1 != n2`.
`networkx.subgraph_view` only evaluates it on existing edges; a missing edge
is mapped to `false`. -/
def CorrelNet.edge_filter (net : CorrelNet) (n1 n2 : String) : Bool :=
  match get_edge_data net.correl_df n1 n2 with
  | some r => decide (r.pvalue ≤ net.alpha) && (n1 != n2)
  | none => false

/-- Edge set of the graph returned by `CorrelNet.to_graph`: the edges of the
`from_pandas_edgelist` graph, restricted by the edge filter when
`apply_filter` is true. -/
def CorrelNet.to_graph_has_edge (net : CorrelNet) (apply_filter : Bool)
    (a b : String) : Bool :=
  has_edge net.correl_df a b && (!apply_filter || CorrelNet.edge_filter net a b)

/-- A data matrix handed to an embedder; `none` models a NaN entry. -/
abbrev NMatrix := List (List (Option Rat))

/-- A dimensionality-reduction function standing for the external sklearn
`TSNE(n_components=2).fit_transform`: one 2D point per input row. -/
abbrev TsneFn := List (List Rat) → List (Rat × Rat)

/-- The `df.fillna(0)` call of `TSNEEmbedder.fit_tsne`: every missing entry
becomes 0, every present entry is kept. -/
def fillna0 (m : NMatrix) : List (List Rat) :=
  m.map (fun row => row.map (fun v => v.getD 0))

/-- The `df.isna().any().any()` test of `TSNEEmbedder.fit_tsne`. -/
def hasNaN (m : NMatrix) : Bool :=
  m.any (fun row => row.any (fun v => v.isNone))

/-- `TSNEEmbedder.fit_tsne`: when the matrix has NaNs they are replaced by 0
and a warning is logged (first component); the reduction then runs on the
NaN-free matrix. When there is no NaN, `fillna0` is the identity on entries,
so the data handed to the reduction is written uniformly as `fillna0 m`. -/
def fit_tsne (tsne : TsneFn) (m : NMatrix) : Bool × List (Rat × Rat) :=
  (hasNaN m, tsne (fillna0 m))

/-- Column labels of the data frame `Correlater.pairwise_correlations`
returns: `set_index(["var_1", "var_2"])` moves the variable-pair labels into
the MultiIndex, leaving `statistic` and `pvalue` as the frame's only columns.
This is the frame `CorrelNet.__init__` hands to every embedder (`to_graph`
has to `reset_index` it before treating the pair labels as columns). -/
def correl_df_columns : List String := ["statistic", "pvalue"]

/-- The column lookup `data[label]` that `pd.pivot` performs for its explicit
`index` and `columns` arguments: a label that is not among the frame's
columns raises `KeyError` — index levels are not columns and do not
participate in this lookup. -/
def frame_column_lookup (frame_columns : List String) (label : String) :
    Except String Unit :=
  if label ∈ frame_columns then .ok () else .error ("KeyError: " ++ label)

/-- The reshaped matrix `pd.pivot` produces once its label lookups succeed
and the ordered pairs are unique: row labels are the distinct `var_1`
values, column labels the distinct `var_2` values, and the cell for `(a, b)`
holds the statistic of the unique row with that ordered pair — `none` (NaN)
when no such row exists. In the pipeline this reshaping is never reached
(see `pd_pivot`). -/
def pivot_table_statistic (rows : List PairRow) : NMatrix :=
  ((rows.map (fun r => r.var_1)).dedup).map (fun a =>
    ((rows.map (fun r => r.var_2)).dedup).map (fun b =>
      ((rows.filter (fun r => r.var_1 == a && r.var_2 == b)).head?).map
        (fun r => r.statistic)))

/-- `pd.pivot(data, index="var_1", columns="var_2", values="statistic")` as
executed on a frame with the given column labels: the column lookups of the
`index` and `columns` arguments run first and raise `KeyError` when the
label is not a column; with genuine columns, duplicate ordered pairs raise
`ValueError`, and otherwise the reshaped statistic matrix results. -/
def pd_pivot (frame_columns : List String) (rows : List PairRow) :
    Except String NMatrix :=
  match frame_column_lookup frame_columns "var_1" with
  | .error e => .error e
  | .ok _ =>
    match frame_column_lookup frame_columns "var_2" with
    | .error e => .error e
    | .ok _ =>
      if (rows.map (fun r => (r.var_1, r.var_2))).Nodup then
        .ok (pivot_table_statistic rows)
      else .error "ValueError: duplicate entries"

/-- `CorrelTSNEEmbedder.embed`: calls `pd.pivot` on the correlation frame it
is given — in the pipeline the MultiIndexed `correl_df`, whose columns are
`correl_df_columns` — then would take absolute values when `use_abs` is set
and run `fit_tsne`. On the pipeline's frame the pivot's lookup of "var_1"
fails, so the `KeyError` propagates before `fit_tsne` (and its NaN handling)
is reached. -/
def CorrelTSNEEmbedder.embed (tsne : TsneFn) (use_abs : Bool)
    (correl_rows : List PairRow) : Except String (Bool × List (Rat × Rat)) :=
  match pd_pivot correl_df_columns correl_rows with
  | .error e => .error e
  | .ok x =>
    .ok (fit_tsne tsne (if use_abs then
      x.map (fun row => row.map (Option.map (fun v => |v|))) else x))

/-- `VarTSNEEmbedder.embed` on the table's value matrix, given as one list
per variable (the transposed form handed to `fit_tsne`). The sklearn
`StandardScaler` used when `standardize` is true is external and passed as a
parameter. -/
def VarTSNEEmbedder.embed (tsne : TsneFn) (scaler : NMatrix → NMatrix)
    (standardize : Bool) (colvals : NMatrix) : Bool × List (Rat × Rat) :=
  let dfv := if standardize then scaler colvals else colvals
  fit_tsne tsne dfv

/-- `RandomEmbedder.embed`: the coordinates are the external
`np.random.default_rng(seed).normal(size=(n, 2))` draw, a function of the
seed and the number of columns only; the column names become the index. -/
def RandomEmbedder.embed (normal : Option Nat → Nat → List (Rat × Rat))
    (random_state : Option Nat) (columns : List String) : PosDf :=
  { index := columns, coords := normal random_state columns.length }

/-- `TargetCorrelationAnnotator.annotate`: the `assert len(self.target) ==
len(df)` guard (its failure modelled as the error value), then the chosen
correlation function applied between each column and the target, keeping the
statistic (row 0 of the applied result). -/
def TargetCorrelationAnnotator.annotate (correl_fn : CorFn) (target : List Rat)
    (df : Table) : Except String (List Rat) :=
  if target.length = df.nrows then
    .ok (df.cols.map (fun c => (correl_fn c.2 target).1))
  else
    .error "LengthMismatch"

/-- Entry of a nested-list matrix at row `i`, column `j`. -/
def getEntry {α : Type} (m : List (List α)) (i j : Nat) : Option α :=
  (m[i]?).bind (fun row => row[j]?)

/-! Helper lemmas about lists, used to reason about the row-major layout of
the pairwise-correlation data frame. -/

theorem length_flatMap_const {α β : Type} (l : List α) (f : α → List β) (n : Nat)
    (hf : ∀ a ∈ l, (f a).length = n) : (l.flatMap f).length = l.length * n := by
  induction l with
  | nil => simp
  | cons a t ih =>
    simp only [List.flatMap_cons, List.length_append, List.length_cons,
      hf a (by simp)]
    rw [ih (fun x hx => hf x (by simp [hx]))]
    ring

theorem getElem?_flatMap_grid {α β : Type} (l : List α) (f : α → List β) (n : Nat)
    (hf : ∀ a ∈ l, (f a).length = n) (i j : Nat) (hi : i < l.length) (hj : j < n) :
    (l.flatMap f)[i * n + j]? = (f (l[i]))[j]? := by
  induction l generalizing i with
  | nil => simp at hi
  | cons a t ih =>
    rw [List.flatMap_cons]
    have hlen : (f a).length = n := hf a (by simp)
    cases i with
    | zero =>
      simp only [Nat.zero_mul, Nat.zero_add, List.getElem_cons_zero]
      rw [List.getElem?_append_left (by rw [hlen]; exact hj)]
    | succ i' =>
      have hge : (f a).length ≤ (i' + 1) * n + j := by
        rw [hlen, Nat.succ_mul]; omega
      rw [List.getElem?_append_right hge, hlen]
      have hidx : (i' + 1) * n + j - n = i' * n + j := by
        rw [Nat.succ_mul]; omega
      rw [hidx, List.getElem_cons_succ]
      exact ih (fun x hx => hf x (by simp [hx])) i' (by simpa using hi)

theorem getLast?_filter_last_match {α : Type} (p : α → Bool) (l : List α)
    (k : Nat) (hk : k < l.length) (hx : p (l[k]) = true)
    (hafter : ∀ m (hm : m < l.length), k < m → p (l[m]) = false) :
    (l.filter p).getLast? = some (l[k]) := by
  conv_lhs => rw [← List.take_append_drop (k + 1) l]
  rw [List.filter_append]
  have hdrop : (l.drop (k + 1)).filter p = [] := by
    rw [List.filter_eq_nil_iff]
    intro a ha
    obtain ⟨m, hm, hma⟩ := List.mem_iff_getElem.mp ha
    have hm' : k + 1 + m < l.length := by
      have := hm; simp [List.length_drop] at this; omega
    have : (l.drop (k + 1))[m] = l[k + 1 + m] :=
      (List.getElem_drop' l hm').symm
    rw [this] at hma
    rw [← hma]
    simpa using hafter (k + 1 + m) hm' (by omega)
  rw [hdrop, List.append_nil]
  rw [List.take_succ, List.getElem?_eq_getElem hk]
  rw [List.filter_append]
  simp [hx]

theorem getElem?_zipWith_of_lt {α β γ : Type} (f : α → β → γ) (l1 : List α)
    (l2 : List β) (i : Nat) (h1 : i < l1.length) (h2 : i < l2.length) :
    (List.zipWith f l1 l2)[i]? = some (f (l1[i]) (l2[i])) := by
  induction l1 generalizing l2 i with
  | nil => simp at h1
  | cons a t ih =>
    cases l2 with
    | nil => simp at h2
    | cons b u =>
      cases i with
      | zero => simp
      | succ i' =>
        simp only [List.zipWith_cons_cons, List.getElem?_cons_succ,
          List.getElem_cons_succ]
        exact ih u i' (by simpa using h1) (by simpa using h2)

theorem grid_index_lt (i j n : Nat) (hi : i < n) (hj : j < n) :
    i * n + j < n * n := by
  have h1 : i * n + j < (i + 1) * n := by
    rw [Nat.succ_mul]; omega
  have h2 : (i + 1) * n ≤ n * n := Nat.mul_le_mul_right n hi
  omega

theorem row_major_lt (ia ib n : Nat) (hab : ia < ib) (hib : ib < n) :
    ia * n + ib < ib * n + ia := by
  have h : ia * n + n ≤ ib * n := by
    calc ia * n + n = (ia + 1) * n := by ring
    _ ≤ ib * n := Nat.mul_le_mul_right n hab
  omega

/-! Structure of the pairwise-correlation data frame. -/

theorem pairwise_raw_length (corFn : CorFn) (df : Table) :
    (pairwise_raw corFn df).length = df.cols.length * df.cols.length :=
  length_flatMap_const _ _ _ (fun _ _ => by simp)

theorem pairwise_raw_getElem? (corFn : CorFn) (df : Table) (i j : Nat)
    (hi : i < df.cols.length) (hj : j < df.cols.length) :
    (pairwise_raw corFn df)[i * df.cols.length + j]?
      = some (mkRow corFn (df.cols[i]) (df.cols[j])) := by
  rw [pairwise_raw,
    getElem?_flatMap_grid df.cols _ df.cols.length (fun _ _ => by simp) i j hi hj]
  simp [List.getElem?_eq_getElem hj]

theorem pairwise_correlations_shape (corFn : CorFn) (c : String) (df : Table)
    (rows : List PairRow) (h : pairwise_correlations corFn c df = .ok rows) :
    rows.length = df.cols.length * df.cols.length ∧
    ∀ i j (hi : i < df.cols.length) (hj : j < df.cols.length),
      ∃ r, rows[i * df.cols.length + j]? = some r ∧
        r.var_1 = (df.cols[i]).1 ∧ r.var_2 = (df.cols[j]).1 ∧
        r.statistic = (corFn (df.cols[i]).2 (df.cols[j]).2).1 := by
  rw [pairwise_correlations] at h
  by_cases hc : c = ""
  · rw [hc, if_pos rfl] at h
    rw [Except.ok.injEq] at h
    subst h
    refine ⟨pairwise_raw_length corFn df, fun i j hi hj => ?_⟩
    exact ⟨mkRow corFn (df.cols[i]) (df.cols[j]),
      pairwise_raw_getElem? corFn df i j hi hj, rfl, rfl, rfl⟩
  · rw [if_neg hc, multipletests] at h
    by_cases hb : c = "bonferroni"
    · rw [hb, if_pos rfl] at h
      rw [Except.ok.injEq] at h
      subst h
      set raw := pairwise_raw corFn df with hraw
      set ps := bonferroni (raw.map (fun r => r.pvalue)) with hps
      have hpslen : ps.length = raw.length := by simp [hps, bonferroni]
      have hzlen : (List.zipWith (fun r p => { r with pvalue := p }) raw ps).length
          = raw.length := by
        rw [List.length_zipWith, hpslen, Nat.min_self]
      refine ⟨by rw [hzlen, hraw, pairwise_raw_length], fun i j hi hj => ?_⟩
      have hk : i * df.cols.length + j < raw.length := by
        rw [hraw, pairwise_raw_length]
        exact grid_index_lt i j df.cols.length hi hj
      have hk2 : i * df.cols.length + j < ps.length := by rw [hpslen]; exact hk
      have hz := getElem?_zipWith_of_lt (fun r p => { r with pvalue := p })
        raw ps (i * df.cols.length + j) hk hk2
      have hrawget : raw[i * df.cols.length + j]
          = mkRow corFn (df.cols[i]) (df.cols[j]) := by
        have := pairwise_raw_getElem? corFn df i j hi hj
        rw [← hraw] at this
        rw [List.getElem?_eq_getElem hk] at this
        exact Option.some.injEq _ _ ▸ (by simpa using this)
      refine ⟨_, hz, ?_, ?_, ?_⟩ <;> simp [hrawget, mkRow]
    · rw [if_neg hb] at h
      exact absurd h (by simp)

/-- In a row-major pairwise matrix over `Nodup` names, the surviving
attribute record of the undirected edge between the variables at positions
`ia < ib` is the one of the later matching row: the slot of the ordered pair
`(ib, ia)`. -/
theorem get_edge_data_last (rows : List PairRow) (names : List String)
    (hnodup : names.Nodup)
    (hlen : rows.length = names.length * names.length)
    (hvar : ∀ i j (hi : i < names.length) (hj : j < names.length),
      ∃ r, rows[i * names.length + j]? = some r ∧
        r.var_1 = names[i] ∧ r.var_2 = names[j])
    (ia ib : Nat) (hab : ia < ib) (hib : ib < names.length) :
    get_edge_data rows (names[ia]) (names[ib])
      = rows[ib * names.length + ia]? := by
  have hia : ia < names.length := lt_trans hab hib
  set n := names.length with hn
  set K := ib * n + ia with hK
  have hKlt : K < rows.length := by
    rw [hlen]; exact grid_index_lt ib ia n hib hia
  obtain ⟨rK, hrK, hrK1, hrK2⟩ := hvar ib ia hib hia
  have hget : rows[K] = rK := by
    have := List.getElem?_eq_getElem hKlt
    rw [this] at hrK
    exact Option.some_injective _ hrK
  have hpK : sameEdge (names[ia]) (names[ib]) (rows[K]) = true := by
    rw [hget, sameEdge, hrK1, hrK2]
    simp
  have hafter : ∀ m (hm : m < rows.length), K < m →
      sameEdge (names[ia]) (names[ib]) (rows[m]) = false := by
    intro m hm hKm
    have hn0 : 0 < n := lt_of_le_of_lt (Nat.zero_le ib) hib
    have hmn : m < n * n := by rw [← hlen]; exact hm
    have hi : m / n < n := Nat.div_lt_iff_lt_mul hn0 |>.mpr hmn
    have hj : m % n < n := Nat.mod_lt m hn0
    have hmeq : (m / n) * n + m % n = m := by
      rw [Nat.mul_comm]
      exact Nat.div_add_mod m n
    obtain ⟨r, hr, hr1, hr2⟩ := hvar (m / n) (m % n) hi hj
    rw [hmeq] at hr
    have hgetm : rows[m] = r := by
      have := List.getElem?_eq_getElem hm
      rw [this] at hr
      exact Option.some_injective _ hr
    rw [hgetm, sameEdge, hr1, hr2]
    by_contra hcon
    simp only [Bool.not_eq_false, Bool.or_eq_true, Bool.and_eq_true, beq_iff_eq]
       at hcon
    rcases hcon with ⟨h1, h2⟩ | ⟨h1, h2⟩
    · have hi' : m / n = ia := (List.Nodup.getElem_inj_iff hnodup).mp h1
      have hj' : m % n = ib := (List.Nodup.getElem_inj_iff hnodup).mp h2
      rw [hi', hj'] at hmeq
      have := row_major_lt ia ib n hab hib
      omega
    · have hi' : m / n = ib := (List.Nodup.getElem_inj_iff hnodup).mp h1
      have hj' : m % n = ia := (List.Nodup.getElem_inj_iff hnodup).mp h2
      rw [hi', hj'] at hmeq
      omega
  rw [get_edge_data,
    getLast?_filter_last_match _ rows K hKlt hpK hafter,
    List.getElem?_eq_getElem hKlt]

theorem init_ok_inv (p s k : CorFn) (method : Method) (c : String)
    (embed : Table → List PairRow → Except String PosDf) (df : Table)
    (alpha : Rat) (net : CorrelNet)
    (h : CorrelNet.init p s k method c embed df alpha = .ok net) :
    ∃ f, cor_fn p s k method = .ok f ∧
      pairwise_correlations f c df = .ok net.correl_df ∧
      embed df net.correl_df = .ok net.pos_df ∧
      net.vars = df.cols.map Prod.fst ∧ net.alpha = alpha := by
  rw [CorrelNet.init] at h
  cases hcf : cor_fn p s k method with
  | error e => rw [hcf] at h; exact absurd h (by simp)
  | ok f =>
    rw [hcf] at h
    dsimp only at h
    cases hpc : pairwise_correlations f c df with
    | error e => rw [hpc] at h; exact absurd h (by simp)
    | ok rows =>
      rw [hpc] at h
      dsimp only at h
      cases hem : embed df rows with
      | error e => rw [hem] at h; exact absurd h (by simp)
      | ok pos =>
        rw [hem] at h
        dsimp only at h
        rw [Except.ok.injEq] at h
        subst h
        exact ⟨f, rfl, hpc, hem, rfl, rfl⟩

/-- C6: for every table with n variables, the pairwise correlation matrix
built by the double loop of `Correlater.pairwise_correlations` has exactly
n * n entries, one per ordered pair (i, j) with i, j < n including i = j,
and the entry of the ordered pair (i, j) — self-pairs included — is obtained
by applying the chosen method function to the two raw column vectors, not
hard-coded. -/
theorem C6_pairwise_matrix_complete (corFn : CorFn) (df : Table) :
    (pairwise_raw corFn df).length = df.cols.length * df.cols.length ∧
    ∀ i j (hi : i < df.cols.length) (hj : j < df.cols.length),
      (pairwise_raw corFn df)[i * df.cols.length + j]?
        = some { var_1 := (df.cols[i]).1, var_2 := (df.cols[j]).1,
                 statistic := (corFn (df.cols[i]).2 (df.cols[j]).2).1,
                 pvalue := (corFn (df.cols[i]).2 (df.cols[j]).2).2 } :=
  ⟨pairwise_raw_length corFn df,
   fun i j hi hj => pairwise_raw_getElem? corFn df i j hi hj⟩

/-- C6 witness: on a concrete two-column table with a concrete method
function, the matrix has 4 entries and the (1, 0) slot applies the method to
the raw columns of variables "b" and "a". -/
theorem C6_pairwise_matrix_complete_witness :
    (pairwise_raw (fun x y => (x.headD 0 - y.headD 0, 0))
        ⟨[("a", [1]), ("b", [2])], 1⟩).length = 4 ∧
    (pairwise_raw (fun x y => (x.headD 0 - y.headD 0, 0))
        ⟨[("a", [1]), ("b", [2])], 1⟩)[2]?
      = some { var_1 := "b", var_2 := "a", statistic := 1, pvalue := 0 } := by
  have h := C6_pairwise_matrix_complete
    (fun x y => (x.headD 0 - y.headD 0, 0)) ⟨[("a", [1]), ("b", [2])], 1⟩
  refine ⟨h.1, ?_⟩
  have h2 := h.2 1 0 (by decide) (by decide)
  simpa [show ((2 : Rat) - 1) = 1 by norm_num] using h2

/-- C10: in every built network over distinct column names, for variables
`a` at position `ia` and `b` at position `ib` with `ia < ib`, the undirected
graph built by `CorrelNet.to_graph` has exactly one attribute record for the
edge between `a` and `b`, and that record is the one stored at the row-major
slot of the ordered pair `(b, a)` — the later of the two matching rows — whose
statistic was computed by applying the method function to the columns in the
order `(b, a)`; with correction disabled the record is exactly the evaluation
of the method function on the ordered pair `(b, a)`. -/
theorem C10_undirected_overwrite (p s k : CorFn) (method : Method) (f : CorFn)
    (c : String) (embed : Table → List PairRow → Except String PosDf)
    (df : Table) (alpha : Rat) (net : CorrelNet)
    (hinit : CorrelNet.init p s k method c embed df alpha = .ok net)
    (hf : cor_fn p s k method = .ok f)
    (hnodup : (df.cols.map Prod.fst).Nodup)
    (ia ib : Nat) (hab : ia < ib) (hib : ib < df.cols.length) :
    has_edge net.correl_df ((df.cols[ia]).1)
      ((df.cols[ib]).1) = true ∧
    get_edge_data net.correl_df ((df.cols[ia]).1)
      ((df.cols[ib]).1) = net.correl_df[ib * df.cols.length + ia]? ∧
    (∃ r, net.correl_df[ib * df.cols.length + ia]? = some r ∧
      r.var_1 = (df.cols[ib]).1 ∧
      r.var_2 = (df.cols[ia]).1 ∧
      r.statistic = (f (df.cols[ib]).2
        (df.cols[ia]).2).1) ∧
    (c = "" → net.correl_df[ib * df.cols.length + ia]?
      = some (mkRow f (df.cols[ib]) (df.cols[ia]))) := by
  have hia : ia < df.cols.length := lt_trans hab hib
  obtain ⟨f', hcf, hpc, hem, hvars, halpha⟩ :=
    init_ok_inv p s k method c embed df alpha net hinit
  rw [hf] at hcf
  rw [Except.ok.injEq] at hcf
  subst hcf
  have hshape := pairwise_correlations_shape f c df net.correl_df hpc
  have hnames_len : (df.cols.map Prod.fst).length = df.cols.length :=
    List.length_map _ _
  have hlen' : net.correl_df.length
      = (df.cols.map Prod.fst).length * (df.cols.map Prod.fst).length := by
    rw [hnames_len]; exact hshape.1
  have hvar' : ∀ i j (hi : i < (df.cols.map Prod.fst).length)
      (hj : j < (df.cols.map Prod.fst).length),
      ∃ r, net.correl_df[i * (df.cols.map Prod.fst).length + j]? = some r ∧
        r.var_1 = (df.cols.map Prod.fst)[i] ∧
        r.var_2 = (df.cols.map Prod.fst)[j] := by
    intro i j hi hj
    have hi' : i < df.cols.length := by rw [← hnames_len]; exact hi
    have hj' : j < df.cols.length := by rw [← hnames_len]; exact hj
    obtain ⟨r, hr, hr1, hr2, _⟩ := hshape.2 i j hi' hj'
    refine ⟨r, ?_, ?_, ?_⟩
    · rw [show (df.cols.map Prod.fst).length = df.cols.length from hnames_len]
      exact hr
    · rw [hr1]; simp
    · rw [hr2]; simp
  have hib' : ib < (df.cols.map Prod.fst).length := by
    rw [hnames_len]; exact hib
  have hedge := get_edge_data_last net.correl_df (df.cols.map Prod.fst)
    hnodup hlen' hvar' ia ib hab hib'
  simp only [List.getElem_map, List.length_map] at hedge
  obtain ⟨r, hr, hr1, hr2, hr3⟩ := hshape.2 ib ia hib hia
  refine ⟨?_, hedge, ⟨r, hr, hr1, hr2, hr3⟩, ?_⟩
  · rw [has_edge, hedge, hr]
    rfl
  · intro hc
    subst hc
    rw [pairwise_correlations, if_pos rfl, Except.ok.injEq] at hpc
    rw [← hpc]
    exact pairwise_raw_getElem? f df ib ia hib hia

/-! Concrete objects used by witnesses and counterexamples. -/

/-- A concrete custom method function: difference of the first entries as the
statistic, p-value 0. Deliberately asymmetric so that the two orders of a
pair are distinguishable. -/
def diffFn : CorFn := fun x y => (x.headD 0 - y.headD 0, 0)

/-- A concrete custom method function: statistic 1, p-value 0. -/
def constFn : CorFn := fun _ _ => (1, 0)

/-- A trivial embedder that always succeeds with an empty positions frame. -/
def trivialEmbed : Table → List PairRow → Except String PosDf :=
  fun _ _ => .ok { index := [], coords := [] }

/-- A concrete one-variable table. -/
def df1 : Table := { cols := [("x", [1, 2])], nrows := 2 }

/-- A concrete two-variable table with one sample. -/
def df2 : Table := { cols := [("a", [1]), ("b", [2])], nrows := 1 }

/-- The network that `CorrelNet.init` builds from `df1` with the `constFn`
method, bonferroni correction and `alpha = 1`. -/
def net1 : CorrelNet :=
  { vars := ["x"], alpha := 1,
    correl_df := [{ var_1 := "x", var_2 := "x", statistic := 1, pvalue := 0 }],
    pos_df := { index := [], coords := [] } }

/-- The network that `CorrelNet.init` builds from `df2` with the `diffFn`
method and no correction. -/
def net10 : CorrelNet :=
  { vars := ["a", "b"], alpha := 1/20,
    correl_df := pairwise_raw diffFn df2,
    pos_df := { index := [], coords := [] } }

/-- A two-variable correlation data frame whose off-diagonal pair is
significant at any threshold. -/
def rows5 : List PairRow :=
  [{ var_1 := "a", var_2 := "a", statistic := 1, pvalue := 0 },
   { var_1 := "a", var_2 := "b", statistic := 1, pvalue := 0 },
   { var_1 := "b", var_2 := "a", statistic := 1, pvalue := 0 },
   { var_1 := "b", var_2 := "b", statistic := 1, pvalue := 0 }]

/-- A network holding `rows5` at threshold 0. -/
def net5 : CorrelNet :=
  { vars := ["a", "b"], alpha := 0, correl_df := rows5,
    pos_df := { index := [], coords := [] } }

/-- A correlation data frame whose pivot misses the ("b", "b") entry. -/
def rows3 : List PairRow :=
  [{ var_1 := "a", var_2 := "a", statistic := 1, pvalue := 0 },
   { var_1 := "a", var_2 := "b", statistic := 1/2, pvalue := 0 },
   { var_1 := "b", var_2 := "a", statistic := 1/2, pvalue := 0 }]

/-- A concrete reduction function: every input point maps to the origin. -/
def tsne0 : TsneFn := fun m => m.map (fun _ => (0, 0))

/-- C10 witness: on the network built from the concrete two-column table with
the asymmetric method function and no correction, the edge between "a" and
"b" exists and its attribute record is the row-major slot of the ordered pair
("b", "a"). -/
theorem C10_undirected_overwrite_witness :
    has_edge net10.correl_df "a" "b" = true ∧
    get_edge_data net10.correl_df "a" "b" = net10.correl_df[2]? := by
  have h := C10_undirected_overwrite diffFn diffFn diffFn (.custom diffFn) diffFn
    "" trivialEmbed df2 (1/20) net10 (by rfl) rfl (by decide) 0 1
    (by decide) (by decide)
  exact ⟨h.1, h.2.1⟩

/-- C1 counterexample: a network built from a one-variable table with
bonferroni correction; the plot edge list contains the self-pair (0, 0),
although the claimed filter requires `i ≠ j` for every included pair at
every alpha. -/
theorem C1_plot_filter_counterexample :
    CorrelNet.init constFn constFn constFn (.custom constFn) "bonferroni"
      trivialEmbed df1 1 = .ok net1 ∧
    (0, 0) ∈ net1.plot_edge_list := by
  have h0 : min (1:Rat) 0 = 0 := by norm_num [min_def]
  have hpc : pairwise_correlations constFn "bonferroni" df1
      = .ok [{ var_1 := "x", var_2 := "x", statistic := 1, pvalue := 0 }] := by
    rw [pairwise_correlations]
    rw [if_neg (by decide), multipletests, if_pos rfl]
    simp [pairwise_raw, df1, mkRow, constFn, bonferroni, h0]
  constructor
  · rw [CorrelNet.init]
    rw [show cor_fn constFn constFn constFn (.custom constFn) = .ok constFn
      from rfl]
    dsimp only
    rw [hpc]
    dsimp only
    rfl
  · decide

/-- C1 amended: the graph-export filter (`CorrelNet.get_edge_filter`, used by
`to_graph` with `apply_filter` true) includes the pair iff the variables
differ and the p-value is at most alpha, so exported self-loops are
impossible; the plotting filter (`CorrelNet.plot`) includes a row iff its
p-value is at most alpha, with no `i ≠ j` condition, so self-pairs appear in
the plotted edge list whenever their p-value passes the threshold. -/
theorem C1_edge_filters_amended (net : CorrelNet) :
    (∀ a, CorrelNet.edge_filter net a a = false) ∧
    (∀ a b r, get_edge_data net.correl_df a b = some r →
      (CorrelNet.edge_filter net a b = true ↔ a ≠ b ∧ r.pvalue ≤ net.alpha)) ∧
    (∀ a b, CorrelNet.to_graph_has_edge net true a b
      = (has_edge net.correl_df a b && CorrelNet.edge_filter net a b)) ∧
    (∀ r ∈ net.correl_df, r.pvalue ≤ net.alpha →
      (net.vars.indexOf r.var_1, net.vars.indexOf r.var_2) ∈ net.plot_edge_list) ∧
    (∀ e ∈ net.plot_edge_list, ∃ r, r ∈ net.correl_df ∧ r.pvalue ≤ net.alpha ∧
      e = (net.vars.indexOf r.var_1, net.vars.indexOf r.var_2)) := by
  refine ⟨?_, ?_, ?_, ?_, ?_⟩
  · intro a
    rw [CorrelNet.edge_filter]
    cases get_edge_data net.correl_df a a with
    | none => rfl
    | some r => simp
  · intro a b r h
    rw [CorrelNet.edge_filter, h]
    rw [Bool.and_eq_true, decide_eq_true_iff, bne_iff_ne]
    exact ⟨fun hh => ⟨hh.2, hh.1⟩, fun hh => ⟨hh.2, hh.1⟩⟩
  · intro a b
    rw [CorrelNet.to_graph_has_edge]
    simp
  · intro r hr hp
    rw [CorrelNet.plot_edge_list]
    exact List.mem_map_of_mem _ (List.mem_filter.mpr ⟨hr, by simpa using hp⟩)
  · intro e he
    rw [CorrelNet.plot_edge_list] at he
    obtain ⟨r, hr, hre⟩ := List.mem_map.mp he
    have hm := List.mem_filter.mp hr
    exact ⟨r, hm.1, by simpa using hm.2, hre.symm⟩

/-- C1 witness: on the concrete network, the export filter rejects the
self-pair. -/
theorem C1_edge_filters_witness :
    CorrelNet.edge_filter net1 "x" "x" = false :=
  (C1_edge_filters_amended net1).1 "x"

/-- C2 counterexample: with `alpha = 2`, outside [0, 1], construction
succeeds and stores the invalid threshold — no `InvalidThreshold` failure
occurs. -/
theorem C2_no_threshold_check_counterexample :
    CorrelNet.init constFn constFn constFn (.custom constFn) "" trivialEmbed
      df1 2
      = .ok { vars := ["x"], alpha := 2,
              correl_df :=
                [{ var_1 := "x", var_2 := "x", statistic := 1, pvalue := 0 }],
              pos_df := { index := [], coords := [] } } := by rfl

/-- C2 amended: construction never validates alpha: whether it succeeds is
independent of alpha (for any alpha, inside or outside [0, 1]), and a
successful construction stores the given alpha unchanged. -/
theorem C2_no_threshold_check_amended (p s k : CorFn) (method : Method)
    (c : String) (embed : Table → List PairRow → Except String PosDf)
    (df : Table) (a1 a2 : Rat) :
    exceptOk (CorrelNet.init p s k method c embed df a1)
      = exceptOk (CorrelNet.init p s k method c embed df a2) ∧
    ∀ net, CorrelNet.init p s k method c embed df a1 = .ok net →
      net.alpha = a1 := by
  constructor
  · rw [CorrelNet.init, CorrelNet.init]
    cases cor_fn p s k method with
    | error e => rfl
    | ok f =>
      dsimp only
      cases pairwise_correlations f c df with
      | error e => rfl
      | ok rows =>
        dsimp only
        cases embed df rows <;> rfl
  · intro net h
    obtain ⟨f, h1, h2, h3, h4, h5⟩ := init_ok_inv p s k method c embed df a1 net h
    exact h5

/-- C2 witness: assembly succeeds alike at `alpha = 2` and `alpha = 1/2`. -/
theorem C2_no_threshold_check_witness :
    exceptOk (CorrelNet.init constFn constFn constFn (.custom constFn) ""
        trivialEmbed df1 2)
      = exceptOk (CorrelNet.init constFn constFn constFn (.custom constFn) ""
        trivialEmbed df1 (1/2)) :=
  (C2_no_threshold_check_amended constFn constFn constFn (.custom constFn) ""
    trivialEmbed df1 2 (1/2)).1

/-- Zero-substitution of `fillna0`, entrywise: a present entry is kept, a
missing entry becomes 0. -/
theorem fillna0_getEntry (m : NMatrix) (i j : Nat) :
    getEntry (fillna0 m) i j = (getEntry m i j).map (fun v => v.getD 0) := by
  rw [getEntry, getEntry, fillna0]
  cases h : m[i]? with
  | none => simp [List.getElem?_map, h]
  | some row => simp [List.getElem?_map, h]

/-- Shared helper: on the correlation frame the pipeline passes (columns
`statistic` and `pvalue` only), the pivot's lookup of "var_1" raises, so
`CorrelTSNEEmbedder.embed` fails with `KeyError: var_1` on every input. -/
theorem correl_pivot_keyerror (tsne : TsneFn) (use_abs : Bool)
    (rows : List PairRow) :
    CorrelTSNEEmbedder.embed tsne use_abs rows = .error "KeyError: var_1" := by
  rw [CorrelTSNEEmbedder.embed, pd_pivot, frame_column_lookup,
    if_neg (by decide)]
  rfl

/-- C3 counterexample: on the pairwise set whose pivot would miss the
("b", "b") entry, the embedder does fail — but with the pivot's column
lookup `KeyError`, not with a `MalformedCorrelationMatrix` validation; and it
fails with the very same error on the complete square pairwise set `rows5`,
so the failure is not a malformedness check at all. -/
theorem C3_no_pivot_check_counterexample :
    CorrelTSNEEmbedder.embed tsne0 false rows3 = .error "KeyError: var_1" ∧
    CorrelTSNEEmbedder.embed tsne0 false rows5 = .error "KeyError: var_1" :=
  ⟨rfl, rfl⟩

/-- C3 amended: `CorrelTSNEEmbedder.embed` contains no squareness or
completeness validation and no `MalformedCorrelationMatrix` error. On the
correlation frame the pipeline passes it — whose columns are only
`statistic` and `pvalue`, the pair labels living in the MultiIndex — the
`pd.pivot` column lookup of "var_1" raises, so the embedder fails with
`KeyError: var_1` for every pairwise-result set alike, malformed or not,
before `fit_tsne` or any zero-patching is reached. -/
theorem C3_no_pivot_check_amended (tsne : TsneFn) (use_abs : Bool)
    (rows : List PairRow) :
    CorrelTSNEEmbedder.embed tsne use_abs rows = .error "KeyError: var_1" ∧
    ¬ "var_1" ∈ correl_df_columns :=
  ⟨correl_pivot_keyerror tsne use_abs rows, by decide⟩

/-- C3 witness: the unconditional pivot failure at a concrete input. -/
theorem C3_no_pivot_check_witness :
    CorrelTSNEEmbedder.embed tsne0 false rows3 = .error "KeyError: var_1" :=
  (C3_no_pivot_check_amended tsne0 false rows3).1

/-- C4: Bonferroni correction of k p-values returns a sequence of the same
length and order with each value `min 1 (p * k)` — in particular
[1/100, 1/50, 1/2] becomes [3/100, 3/50, 1] — and a falsy (null/empty)
correction passes the p-values through unchanged. -/
theorem C4_bonferroni_correction (ps : List Rat) (corFn : CorFn) (df : Table) :
    (∃ qs, multipletests "bonferroni" ps = .ok qs ∧ qs.length = ps.length ∧
      ∀ i (hi : i < ps.length),
        qs[i]? = some (min 1 ((ps[i]) * (ps.length : Rat)))) ∧
    pairwise_correlations corFn "" df = .ok (pairwise_raw corFn df) ∧
    multipletests "bonferroni" [1/100, 1/50, 1/2] = .ok [3/100, 3/50, 1] := by
  refine ⟨⟨bonferroni ps, ?_, ?_, ?_⟩, ?_, ?_⟩
  · rw [multipletests, if_pos rfl]
  · rw [bonferroni]; exact List.length_map _ _
  · intro i hi
    rw [bonferroni, List.getElem?_map, List.getElem?_eq_getElem hi]
    rfl
  · rw [pairwise_correlations, if_pos rfl]
  · rw [multipletests, if_pos rfl, bonferroni]
    norm_num [min_def]

/-- C4 witness: the corrected sequence of the spec's example, obtained from
the theorem at that concrete input. -/
theorem C4_bonferroni_correction_witness :
    multipletests "bonferroni" [1/100, 1/50, 1/2] = .ok [3/100, 3/50, 1] :=
  (C4_bonferroni_correction [] constFn df1).2.2

/-- C5: after assembly, raising alpha and re-querying `to_graph` leaves the
stored correlation matrix and embedding untouched (the query only refilters
them), every edge present at the original alpha is still present at the
larger alpha, and the attribute record (statistic included) of every edge is
unchanged. -/
theorem C5_alpha_requery_superset (net : CorrelNet) (alpha' : Rat)
    (h : net.alpha ≤ alpha') :
    ({ net with alpha := alpha' } : CorrelNet).correl_df = net.correl_df ∧
    ({ net with alpha := alpha' } : CorrelNet).pos_df = net.pos_df ∧
    (∀ a b, CorrelNet.to_graph_has_edge net true a b = true →
      CorrelNet.to_graph_has_edge { net with alpha := alpha' } true a b
        = true) ∧
    (∀ a b, get_edge_data ({ net with alpha := alpha' } : CorrelNet).correl_df
        a b = get_edge_data net.correl_df a b) := by
  refine ⟨rfl, rfl, ?_, fun a b => rfl⟩
  intro a b hab
  rw [CorrelNet.to_graph_has_edge] at hab ⊢
  rw [Bool.and_eq_true] at hab ⊢
  refine ⟨hab.1, ?_⟩
  have h2 := hab.2
  simp only [Bool.not_true, Bool.false_or] at h2 ⊢
  rw [CorrelNet.edge_filter] at h2 ⊢
  dsimp only at h2 ⊢
  cases hg : get_edge_data net.correl_df a b with
  | none => rw [hg] at h2; exact absurd h2 (by simp)
  | some r =>
    rw [hg] at h2
    dsimp only at h2 ⊢
    rw [Bool.and_eq_true, decide_eq_true_iff] at h2 ⊢
    exact ⟨le_trans h2.1 h, h2.2⟩

/-- C5 witness: on the concrete two-variable network, the edge between "a"
and "b" retained at alpha = 0 is still an edge after alpha is raised to 1. -/
theorem C5_alpha_requery_superset_witness :
    CorrelNet.to_graph_has_edge { net5 with alpha := 1 } true "a" "b"
      = true :=
  (C5_alpha_requery_superset net5 1 (by decide)).2.2.1 "a" "b" (by decide)

/-- C7: the claimed missing-value handling holds for `VarTSNEEmbedder` — on
data with missing values it does not fail, raises the warning flag, and
hands the reduction the zero-filled matrix, the substitution keeping present
entries and mapping missing ones to 0 (the external scaler is assumed to
preserve NaN positions, as the sklearn `StandardScaler` documents). But
`CorrelTSNEEmbedder` cannot deliver it: its `pd.pivot` call fails with
`KeyError: var_1` on the pipeline's MultiIndexed correlation frame for every
input, missing values or not, before its NaN handling is reached — so the
code falls short of the claim on the CorrelTSNE half. -/
theorem C7_missing_values_warned (tsne : TsneFn) (scaler : NMatrix → NMatrix)
    (standardize : Bool) (colvals : NMatrix)
    (hscaler : ∀ m, hasNaN (scaler m) = hasNaN m)
    (hmiss : hasNaN colvals = true) :
    (VarTSNEEmbedder.embed tsne scaler standardize colvals).1 = true ∧
    (VarTSNEEmbedder.embed tsne scaler standardize colvals).2
      = tsne (fillna0 (if standardize then scaler colvals else colvals)) ∧
    (∀ m i j, getEntry (fillna0 m) i j
      = (getEntry m i j).map (fun v => v.getD 0)) ∧
    (∀ use_abs rows, CorrelTSNEEmbedder.embed tsne use_abs rows
      = .error "KeyError: var_1") := by
  refine ⟨?_, rfl, fun m i j => fillna0_getEntry m i j,
    fun use_abs rows => correl_pivot_keyerror tsne use_abs rows⟩
  rw [VarTSNEEmbedder.embed]
  cases standardize with
  | false => simpa [fit_tsne] using hmiss
  | true =>
    rw [if_pos rfl]
    rw [show (fit_tsne tsne (scaler colvals)).1 = hasNaN (scaler colvals)
      from rfl]
    rw [hscaler colvals]
    exact hmiss

/-- C7 witness: a concrete one-variable matrix with a missing value makes the
variable-space TSNE embedder warn (and still produce a result), while the
correlation-space TSNE embedder fails at its pivot. -/
theorem C7_missing_values_warned_witness :
    (VarTSNEEmbedder.embed tsne0 id true [[some 1, none]]).1 = true ∧
    CorrelTSNEEmbedder.embed tsne0 false rows3 = .error "KeyError: var_1" :=
  ⟨(C7_missing_values_warned tsne0 id true [[some 1, none]] (fun _ => rfl)
      (by decide)).1,
   (C7_missing_values_warned tsne0 id true [[some 1, none]] (fun _ => rfl)
      (by decide)).2.2.2 false rows3⟩

/-- C8: `RandomEmbedder.embed` with a fixed seed depends on nothing but the
seed and the number of variables: two tables with the same column count give
identical coordinates, and the column names are used only as the index of
the resulting frame. -/
theorem C8_random_embed_determinism
    (normal : Option Nat → Nat → List (Rat × Rat))
    (random_state : Option Nat) (cols1 cols2 : List String)
    (h : cols1.length = cols2.length) :
    (RandomEmbedder.embed normal random_state cols1).coords
      = (RandomEmbedder.embed normal random_state cols2).coords ∧
    (RandomEmbedder.embed normal random_state cols1).index = cols1 := by
  rw [RandomEmbedder.embed, RandomEmbedder.embed]
  exact ⟨by rw [h], rfl⟩

/-- C8 witness: two different two-column tables receive identical coordinates
under the same seed. -/
theorem C8_random_embed_determinism_witness :
    (RandomEmbedder.embed (fun _ n => List.replicate n (0, 0)) (some 19)
        ["a", "b"]).coords
      = (RandomEmbedder.embed (fun _ n => List.replicate n (0, 0)) (some 19)
        ["u", "v"]).coords :=
  (C8_random_embed_determinism (fun _ n => List.replicate n (0, 0)) (some 19)
    ["a", "b"] ["u", "v"] rfl).1

/-- C9: the annotator fails with `LengthMismatch` exactly when the target
length differs from the table's row count; when the lengths match it returns
one scalar statistic per variable, each computed by the chosen correlation
function between the column and the target. -/
theorem C9_annotate_length_guard (corFn : CorFn) (target : List Rat)
    (df : Table) :
    (TargetCorrelationAnnotator.annotate corFn target df
        = .error "LengthMismatch" ↔ target.length ≠ df.nrows) ∧
    (target.length = df.nrows →
      ∃ stats, TargetCorrelationAnnotator.annotate corFn target df
          = .ok stats ∧
        stats.length = df.cols.length ∧
        ∀ i (hi : i < df.cols.length),
          stats[i]? = some ((corFn (df.cols[i]).2 target).1)) := by
  rw [TargetCorrelationAnnotator.annotate]
  by_cases h : target.length = df.nrows
  · rw [if_pos h]
    refine ⟨by simp [h], fun _ => ⟨_, rfl, List.length_map _ _, fun i hi => ?_⟩⟩
    rw [List.getElem?_map, List.getElem?_eq_getElem hi]
    rfl
  · rw [if_neg h]
    exact ⟨by simp [h], fun hc => absurd hc h⟩

/-- C9 witness: a one-element target against a two-row table fails with the
length error. -/
theorem C9_annotate_length_guard_witness :
    TargetCorrelationAnnotator.annotate constFn [1] df1
      = .error "LengthMismatch" :=
  (C9_annotate_length_guard constFn [1] df1).1.mpr (by decide)

end Correlnet
